import Mathlib

/-!
Verification of the errudite core data model (targets, labels, instances,
the versioned instance store, and the linguistic-performance correlator),
shallowly embedded from the tutorial sources and the design specification.
-/

namespace Errudite

/-- An annotated span of text, identified by `(qid, vid)`.
Embeds the `Target` class constructed in `SNLIReader._text_to_instance`
(`Target(qid=..., text=..., vid=0, metas=...)`). Metadata is opaque to the
core, so it is omitted from the embedding. -/
structure Target where
  qid : String
  vid : Nat
  text : String
  deriving DecidableEq, Repr

/-- A groundtruth or prediction label: a `Target` that additionally carries
the producing `model`'s name and a `performance` map from metric name to
score. Embeds the `Label` / `PredefinedLabel` classes of the tutorial. -/
structure Label where
  qid : String
  vid : Nat
  text : String
  model : String
  performance : List (String × ℚ)
  deriving DecidableEq, Repr

/-- First-match lookup in an association list, the embedding of a Python
`dict` access. -/
def lookupA {α : Type} : List (String × α) → String → Option α
  | [], _ => none
  | (k, v) :: rest, key => if k = key then some v else lookupA rest key

/-- Modelled from the spec: the `accuracy_score` evaluator imported from
`errudite.utils` (its body is not part of the visible sources). Per the
spec, a predefined-class label is scored by exact string equality against
the groundtruth texts, giving metric `accuracy` the score 1.0 or 0.0. -/
def accuracy_score (pred : String) (groundtruths : List String) : List (String × ℚ) :=
  [("accuracy", if groundtruths.contains pred then 1 else 0)]

/-- The task-level evaluator configuration installed by
`Label.set_task_evaluator(task_evaluation_func, task_primary_metric)`:
a scoring function plus the name of the primary metric. -/
structure TaskEvaluator where
  task_evaluation_func : String → List String → List (String × ℚ)
  task_primary_metric : String

/-- The evaluator installed by `SNLIReader.__init__` and
`PredictorNLI.__init__`: `Label.set_task_evaluator(accuracy_score, 'accuracy')`. -/
def snliEvaluator : TaskEvaluator :=
  { task_evaluation_func := accuracy_score, task_primary_metric := "accuracy" }

/-- Embeds `label.compute_perform(groundtruths=...)`: populate `performance`
with the task evaluation function's scores for the label's text. -/
def compute_perform (ev : TaskEvaluator) (text : String) (groundtruths : List String) :
    List (String × ℚ) :=
  ev.task_evaluation_func text groundtruths

/-- Embeds `is_incorrect()` on a scored label: the primary metric's score
is strictly below 1 (notebook: "primary metric < 1"). A missing primary
metric reads as score 0. -/
def is_incorrect (ev : TaskEvaluator) (lbl : Label) : Bool :=
  decide ((lookupA lbl.performance ev.task_primary_metric).getD 0 < 1)

/-- The json-format output of `Predictor.predict`:
`{'text': ..., 'confidence': ...}`. -/
structure Prediction where
  text : String
  confidence : ℚ
  deriving DecidableEq, Repr

/-- A predictor: a name plus a raw prediction function over the premise and
hypothesis texts. The underlying model may fail, in which case `predict`
produces nothing (`if not predicted: return None` in `model_predict`). -/
structure Predictor where
  name : String
  predict : String → String → Option Prediction

/-- Embeds `PredictorNLI.model_predict(predictor, premise, hypothesis,
groundtruth)` from the tutorial source: returns `None` when the predictor is
absent or its `predict` call yields nothing; otherwise wraps the predicted
text into a `PredefinedLabel` with
`vid = max([premise.vid, hypothesis.vid, groundtruth.vid])`, scores it
against the groundtruth and records the confidence. -/
def model_predict (ev : TaskEvaluator) (predictor : Option Predictor)
    (premise hypothesis : Target) (groundtruth : Label) : Option Label :=
  match predictor with
  | none => none
  | some p =>
    match p.predict premise.text hypothesis.text with
    | none => none
    | some predicted =>
      some { model := p.name
             qid := premise.qid
             text := predicted.text
             vid := max premise.vid (max hypothesis.vid groundtruth.vid)
             performance :=
               compute_perform ev predicted.text [groundtruth.text]
                 ++ [("confidence", predicted.confidence)] }

/-- An entry of an `Instance`: either a plain `Target` (premise, hypothesis)
or a `Label` (groundtruth, prediction). -/
inductive Entry
  | target : Target → Entry
  | label : Label → Entry
  deriving DecidableEq, Repr

/-- Version of an entry, whichever kind it is. -/
def Entry.vid : Entry → Nat
  | .target t => t.vid
  | .label l => l.vid

/-- Modelled from the spec: the `Instance` class of
`errudite.targets.instance` (only its call sites are in the visible
sources). A named bundle of entries keyed by role, identified by
`(qid, vid)`. The `predictions` and `groundtruths` roles may carry several
labels, so every role maps to a list of entries; single-target roles are
singleton lists. -/
structure Instance where
  qid : String
  vid : Nat
  entries : List (String × List Entry)
  deriving DecidableEq, Repr

/-- All entries of an instance, across every role. -/
def allEntries (i : Instance) : List Entry :=
  (i.entries.map Prod.snd).flatten

/-- Maximum of a list of versions (0 for the empty list). -/
def maxVid (vids : List Nat) : Nat :=
  vids.foldr max 0

/-- Role map update: the updated roles replace their previous bindings,
the remaining roles keep theirs (the embedding of a Python `dict` update,
up to binding order, which role lookup does not observe). -/
def overrideRoles (old updates : List (String × List Entry)) :
    List (String × List Entry) :=
  updates ++ old.filter (fun e => (lookupA updates e.1).isNone)

/-- Modelled from the spec: `Instance.set_entries(**updates)` returns a new
Instance with the given roles replaced and the resulting `vid` computed as
the max over all entry `vid`s. -/
def set_entries (i : Instance) (updates : List (String × List Entry)) : Instance :=
  let merged := overrideRoles i.entries updates
  { qid := i.qid
    vid := maxVid (((merged.map Prod.snd).flatten).map Entry.vid)
    entries := merged }

/-- Modelled from the spec: a call `receiver.set_entries(**updates)` as the
caller observes it — the pair of the returned new Instance and the receiver
after the call (`set_entries` does not mutate the receiver). -/
def set_entries_call (receiver : Instance) (updates : List (String × List Entry)) :
    Instance × Instance :=
  (set_entries receiver updates, receiver)

/-- Modelled from the spec: `next_version(qid)` over the store's
`version_index` (`Instance.qid_hash`), an association from qid to the list
of registered vids: `max(version_index[qid]) + 1`, or `0` if unseen. -/
def next_version (version_index : List (String × List Nat)) (qid : String) : Nat :=
  match lookupA version_index qid with
  | none => 0
  | some vids => if vids.isEmpty then 0 else vids.foldr max 0 + 1

/-- Append a vid at the end of `version_index[qid]`, creating the binding
when the qid is unseen. -/
def appendVid : List (String × List Nat) → String → Nat → List (String × List Nat)
  | [], qid, v => [(qid, [v])]
  | (q, vids) :: rest, qid, v =>
    if q = qid then (q, vids ++ [v]) :: rest
    else (q, vids) :: appendVid rest qid v

/-- Modelled from the spec: registering one instance for `qid`, its vid
assigned by `next_version` (the first ingested version is 0, each rewrite
takes the next version) and appended to `version_index[qid]`. -/
def register_fresh (version_index : List (String × List Nat)) (qid : String) :
    List (String × List Nat) :=
  appendVid version_index qid (next_version version_index qid)

/-- Registering `k` instances for `qid` in sequence, starting from an empty
store. -/
def register_seq (qid : String) : Nat → List (String × List Nat)
  | 0 => []
  | k + 1 => register_fresh (register_seq qid k) qid

/-- The vids recorded for a qid (empty when unseen). -/
def vidsOf (version_index : List (String × List Nat)) (qid : String) : List Nat :=
  (lookupA version_index qid).getD []

/-- Whether `matched` occurs in `source` at character offset `i`. -/
def spanMatchesAt (source matched : List Char) (i : Nat) : Bool :=
  matched.isPrefixOf (source.drop i)

/-- First character offset at or after `i` where `matched` occurs in the
remaining source, scanning left to right. -/
def firstOccFrom (matched : List Char) : List Char → Nat → Option Nat
  | [], i => if matched.isPrefixOf ([] : List Char) then some i else none
  | c :: rest, i =>
    if matched.isPrefixOf (c :: rest) then some i
    else firstOccFrom matched rest (i + 1)

/-- Failure of span-label construction. -/
inductive SpanError
  | SpanNotFoundError
  deriving DecidableEq, Repr

/-- Modelled from the spec: `SpanLabel` construction locates `matched` as a
literal substring of the source target's text, selecting the first
occurrence by character offset, and yields its `(start, end)` character
span; it fails with `SpanNotFoundError` when no occurrence exists. -/
def construct_span_label (source matched : String) : Except SpanError (Nat × Nat) :=
  match firstOccFrom matched.data source.data 0 with
  | none => .error .SpanNotFoundError
  | some i => .ok (i, i + matched.length)

/-- An instance as the Performance Correlator sees it: for each target
role, the patterns mined from that target; and the set of models that
mispredict the instance. -/
structure AnalyzedInstance where
  patterns : List (String × List String)
  incorrect_models : List String
  deriving DecidableEq, Repr

/-- Whether the instance's target for `role` matches `pat`. -/
def target_matches (inst : AnalyzedInstance) (role pat : String) : Bool :=
  ((lookupA inst.patterns role).getD []).contains pat

/-- Whether `model` mispredicts the instance. -/
def mispredicted (inst : AnalyzedInstance) (model : String) : Bool :=
  inst.incorrect_models.contains model

/-- Count of instances whose target for `role` matches `pat`. -/
def cover (insts : List AnalyzedInstance) (role pat : String) : Nat :=
  insts.countP (fun inst => target_matches inst role pat)

/-- Count of instances whose target for `role` matches `pat` and that
`model` also mispredicts. -/
def err_cover (insts : List AnalyzedInstance) (role pat model : String) : Nat :=
  insts.countP (fun inst => target_matches inst role pat && mispredicted inst model)

/-- One linguistic-performance record of `ling_perform_dict`. -/
structure PerfRecord where
  cover : Nat
  err_cover : Nat
  err_rate : ℚ
  deriving DecidableEq, Repr

/-- Modelled from the spec: the `ling_perform_dict` entry for a key
`(role, pat, model)` over a corpus — materialized only when some instance
matches (`cover ≥ 1`), with `err_rate = err_cover / cover`. -/
def ling_perform_record (insts : List AnalyzedInstance) (role pat model : String) :
    Option PerfRecord :=
  let c := cover insts role pat
  if c = 0 then none
  else some { cover := c
              err_cover := err_cover insts role pat model
              err_rate := (err_cover insts role pat model : ℚ) / (c : ℚ) }

/-- Per-key coverage statistics of one partition of the corpus. -/
structure Counts where
  cover : Nat
  err_cover : Nat
  deriving DecidableEq, Repr

/-- Merging two partitions' statistics for a key: sum `cover` and
`err_cover`. -/
def merge_counts (a b : Counts) : Counts :=
  { cover := a.cover + b.cover, err_cover := a.err_cover + b.err_cover }

/-- Statistics of the empty partition. -/
def zero_counts : Counts :=
  { cover := 0, err_cover := 0 }

/-- Single-pass statistics of a corpus for one key. -/
def counts_of (insts : List AnalyzedInstance) (role pat model : String) : Counts :=
  { cover := cover insts role pat, err_cover := err_cover insts role pat model }

/-- Embeds the loop of `SNLIReader._read` (non-lazy branch): for each row
at index `idx`, `_text_to_instance` either yields an instance (appended) or
`None` (skipped); then, when `sample_size` is truthy and `idx` exceeds it,
the loop breaks. -/
def snli_read_loop {α : Type} (sample_size : Nat) : List (Option α) → Nat → List α
  | [], _ => []
  | row :: rest, idx =>
    let appended : List α := match row with | some a => [a] | none => []
    if sample_size ≠ 0 ∧ sample_size < idx then appended
    else appended ++ snli_read_loop sample_size rest (idx + 1)

/-- Embeds `SNLIReader._read` with `lazy=False`: iterate the rows from
index 0 (`sample_size = 0` embeds Python's falsy `None`). -/
def snli_read {α : Type} (rows : List (Option α)) (sample_size : Nat) : List α :=
  snli_read_loop sample_size rows 0

/-- Build a scored label: a label whose `performance` was populated by
`compute_perform` against the given groundtruth texts. -/
def scored_label (ev : TaskEvaluator) (model qid : String) (vid : Nat)
    (text : String) (groundtruths : List String) : Label :=
  { qid := qid, vid := vid, text := text, model := model
    performance := compute_perform ev text groundtruths }

/-- Premise target of the tutorial's running example. -/
def ex_premise : Target :=
  { qid := "4705552913.jpg#2r1n", vid := 0
    text := "Two women are embracing while holding to go packages." }

/-- Hypothesis target of the running example, at a later version. -/
def ex_hypothesis : Target :=
  { qid := "4705552913.jpg#2r1n", vid := 1
    text := "The sisters are hugging goodbye." }

/-- Groundtruth label of the running example. -/
def ex_groundtruth : Label :=
  { qid := "4705552913.jpg#2r1n", vid := 0, text := "neutral"
    model := "groundtruth", performance := [] }

/-- A predictor that answers `neutral` with full confidence. -/
def ex_predictor : Predictor :=
  { name := "decompose_att"
    predict := fun _ _ => some { text := "neutral", confidence := 1 } }

/-- A predictor whose `predict` call produces no result. -/
def ex_failing_predictor : Predictor :=
  { name := "decompose_att", predict := fun _ _ => none }

/-- The prediction label `model_predict` produces on the running example
with `ex_predictor`. -/
def ex_prediction_label : Label :=
  { qid := "4705552913.jpg#2r1n", vid := 1, text := "neutral"
    model := "decompose_att"
    performance := [("accuracy", 1), ("confidence", 1)] }

/-- A one-entry instance used to exercise `set_entries`. -/
def ex_instance : Instance :=
  { qid := "q1", vid := 0
    entries := [("premise", [Entry.target { qid := "q1", vid := 0, text := "t" }])] }

/-- A role update adding a prediction at version 2. -/
def ex_updates : List (String × List Entry) :=
  [("predictions",
    [Entry.label { qid := "q1", vid := 2, text := "neutral", model := "m"
                   performance := [] }])]

/-- A correctly scored label (prediction equals groundtruth). -/
def ex_label_correct : Label :=
  scored_label snliEvaluator "decompose_att" "q1" 0 "neutral" ["neutral"]

/-- An incorrectly scored label (prediction differs from groundtruth). -/
def ex_label_wrong : Label :=
  scored_label snliEvaluator "decompose_att" "q1" 0 "entailment" ["neutral"]

/-- Three analyzed instances: the pattern `NOUN are` occurs in the first
two, and model `m1` mispredicts the first and the third. -/
def ex_corr_instances : List AnalyzedInstance :=
  [ { patterns := [("premise", ["NOUN are"])], incorrect_models := ["m1"] },
    { patterns := [("premise", ["NOUN are"])], incorrect_models := [] },
    { patterns := [("premise", ["PRON runs"])], incorrect_models := ["m1"] } ]

/-- Every member of a version list is bounded by `maxVid`. -/
theorem le_maxVid_of_mem {v : Nat} {l : List Nat} (h : v ∈ l) : v ≤ maxVid l := by
  induction l with
  | nil => cases h
  | cons a t ih =>
    rcases List.mem_cons.mp h with rfl | h'
    · exact le_max_left _ _
    · exact le_trans (ih h') (le_max_right _ _)

/-- On a nonempty version list, `maxVid` is attained by a member. -/
theorem maxVid_mem {l : List Nat} (h : l ≠ []) : maxVid l ∈ l := by
  induction l with
  | nil => exact absurd rfl h
  | cons a t ih =>
    by_cases ht : t = []
    · subst ht
      simp [maxVid]
    · rcases max_choice a (maxVid t) with h1 | h1
      · have : maxVid (a :: t) = a := h1
        rw [this]
        exact List.mem_cons_self a t
      · have : maxVid (a :: t) = maxVid t := h1
        rw [this]
        exact List.mem_cons_of_mem a (ih ht)

/-- A key bound in the left part of an appended association list keeps its
binding. -/
theorem lookupA_append_some {α : Type} {a b : List (String × α)} {k : String}
    {v : α} (h : lookupA a k = some v) : lookupA (a ++ b) k = some v := by
  induction a with
  | nil => simp [lookupA] at h
  | cons e rest ih =>
    obtain ⟨k', v'⟩ := e
    by_cases hk : k' = k
    · simpa [lookupA, hk] using h
    · simp only [lookupA, if_neg hk] at h
      show lookupA (((k', v') :: rest) ++ b) k = some v
      simp only [List.cons_append, lookupA, if_neg hk]
      exact ih h

/-- A key unbound in the left part of an appended association list is
looked up in the right part. -/
theorem lookupA_append_none {α : Type} {a b : List (String × α)} {k : String}
    (h : lookupA a k = none) : lookupA (a ++ b) k = lookupA b k := by
  induction a with
  | nil => rfl
  | cons e rest ih =>
    obtain ⟨k', v'⟩ := e
    by_cases hk : k' = k
    · simp [lookupA, hk] at h
    · simp only [lookupA, if_neg hk] at h
      simp only [List.cons_append, lookupA, if_neg hk]
      exact ih h

/-- Filtering out the roles rebound by `updates` does not change the lookup
of a role that `updates` does not bind. -/
theorem lookupA_filter_not_updated {α : Type} {updates old : List (String × α)}
    {k : String} (h : lookupA updates k = none) :
    lookupA (old.filter (fun e => (lookupA updates e.1).isNone)) k = lookupA old k := by
  induction old with
  | nil => rfl
  | cons e rest ih =>
    obtain ⟨k', v'⟩ := e
    by_cases hk : k' = k
    · subst hk
      have hkeep : (lookupA updates k').isNone = true := by simp [h]
      simp [List.filter_cons, hkeep, lookupA]
    · by_cases hu : (lookupA updates k').isNone = true
      · simp only [List.filter_cons]
        rw [if_pos (by simpa using hu)]
        simp only [lookupA, if_neg hk]
        exact ih
      · simp only [List.filter_cons]
        rw [if_neg (by simpa using hu)]
        rw [ih]
        simp [lookupA, if_neg hk]

/-- C1: the Instance produced by `set_entries` has its `vid` equal to the
maximum `vid` among all of its entries: every entry's `vid` is bounded by
the instance's `vid`, and (when the instance has any entry at all) some
entry attains it. -/
theorem set_entries_vid_is_max_entry_vid (i : Instance)
    (u : List (String × List Entry)) :
    (∀ e ∈ allEntries (set_entries i u), e.vid ≤ (set_entries i u).vid) ∧
    (allEntries (set_entries i u) ≠ [] →
      ∃ e ∈ allEntries (set_entries i u), e.vid = (set_entries i u).vid) := by
  constructor
  · intro e he
    exact le_maxVid_of_mem (List.mem_map_of_mem Entry.vid he)
  · intro hne
    have hmap : (allEntries (set_entries i u)).map Entry.vid ≠ [] := by
      simpa using hne
    have hmem : (set_entries i u).vid ∈ (allEntries (set_entries i u)).map Entry.vid :=
      maxVid_mem hmap
    obtain ⟨e, he, hv⟩ := List.mem_map.mp hmem
    exact ⟨e, he, hv⟩

/-- Witness for C1 at a concrete instance and update. -/
theorem set_entries_vid_is_max_entry_vid_witness :
    ∃ e ∈ allEntries (set_entries ex_instance ex_updates),
      e.vid = (set_entries ex_instance ex_updates).vid :=
  (set_entries_vid_is_max_entry_vid ex_instance ex_updates).2 (by decide)

/-- C3: `set_entries` returns a new Instance with the given roles replaced
(updated roles take the new binding, other roles keep the receiver's) and
leaves the receiver Instance itself unchanged. -/
theorem set_entries_pure_update (i : Instance) (u : List (String × List Entry)) :
    (set_entries_call i u).2 = i ∧
    (set_entries_call i u).1.qid = i.qid ∧
    (∀ role v, lookupA u role = some v →
      lookupA (set_entries_call i u).1.entries role = some v) ∧
    (∀ role, lookupA u role = none →
      lookupA (set_entries_call i u).1.entries role = lookupA i.entries role) := by
  refine ⟨rfl, rfl, ?_, ?_⟩
  · intro role v h
    exact lookupA_append_some h
  · intro role h
    show lookupA (overrideRoles i.entries u) role = lookupA i.entries role
    unfold overrideRoles
    rw [lookupA_append_none h]
    exact lookupA_filter_not_updated h

/-- Witness for C3 at a concrete receiver and update. -/
theorem set_entries_pure_update_witness :
    (set_entries_call ex_instance ex_updates).2 = ex_instance ∧
    lookupA (set_entries_call ex_instance ex_updates).1.entries "premise" =
      lookupA ex_instance.entries "premise" :=
  ⟨(set_entries_pure_update ex_instance ex_updates).1,
   (set_entries_pure_update ex_instance ex_updates).2.2.2 "premise" (by decide)⟩

/-- C4: a prediction Label produced by `model_predict` has a `vid` at least
the `vid` of each Target it was derived from (premise, hypothesis,
groundtruth). -/
theorem model_predict_vid_ge_inputs (ev : TaskEvaluator)
    (predictor : Option Predictor) (premise hypothesis : Target)
    (groundtruth : Label) (lbl : Label)
    (h : model_predict ev predictor premise hypothesis groundtruth = some lbl) :
    premise.vid ≤ lbl.vid ∧ hypothesis.vid ≤ lbl.vid ∧ groundtruth.vid ≤ lbl.vid := by
  cases predictor with
  | none => simp [model_predict] at h
  | some p =>
    cases hp : p.predict premise.text hypothesis.text with
    | none => simp [model_predict, hp] at h
    | some predicted =>
      simp only [model_predict, hp, Option.some.injEq] at h
      subst h
      refine ⟨le_max_left _ _, ?_, ?_⟩
      · exact le_trans (le_max_left _ _) (le_max_right _ _)
      · exact le_trans (le_max_right _ _) (le_max_right _ _)

/-- Witness for C4 on the tutorial's running example. -/
theorem model_predict_vid_ge_inputs_witness :
    ex_premise.vid ≤ ex_prediction_label.vid ∧
    ex_hypothesis.vid ≤ ex_prediction_label.vid ∧
    ex_groundtruth.vid ≤ ex_prediction_label.vid :=
  model_predict_vid_ge_inputs snliEvaluator (some ex_predictor)
    ex_premise ex_hypothesis ex_groundtruth ex_prediction_label rfl

/-- C9: when the predictor is absent, or its `predict` call produces no
result, `model_predict` produces no prediction Label. -/
theorem model_predict_none_on_missing :
    (∀ (ev : TaskEvaluator) (premise hypothesis : Target) (groundtruth : Label),
      model_predict ev none premise hypothesis groundtruth = none) ∧
    (∀ (ev : TaskEvaluator) (p : Predictor) (premise hypothesis : Target)
      (groundtruth : Label),
      p.predict premise.text hypothesis.text = none →
      model_predict ev (some p) premise hypothesis groundtruth = none) := by
  constructor
  · intro ev premise hypothesis groundtruth
    rfl
  · intro ev p premise hypothesis groundtruth h
    simp [model_predict, h]

/-- Witness for C9: a missing predictor and a failing predictor. -/
theorem model_predict_none_on_missing_witness :
    model_predict snliEvaluator none ex_premise ex_hypothesis ex_groundtruth = none ∧
    model_predict snliEvaluator (some ex_failing_predictor)
      ex_premise ex_hypothesis ex_groundtruth = none :=
  ⟨model_predict_none_on_missing.1 snliEvaluator ex_premise ex_hypothesis ex_groundtruth,
   model_predict_none_on_missing.2 snliEvaluator ex_failing_predictor
     ex_premise ex_hypothesis ex_groundtruth rfl⟩

/-- C5: a scored Label is incorrect exactly when the primary metric's score
is strictly below 1; with the accuracy evaluator, groundtruth `neutral` and
prediction `neutral` score `accuracy = 1` and are not incorrect, while
prediction `entailment` scores `accuracy = 0` and is incorrect. -/
theorem is_incorrect_iff_primary_below_one :
    (∀ (ev : TaskEvaluator) (lbl : Label),
      is_incorrect ev lbl = true ↔
        (lookupA lbl.performance ev.task_primary_metric).getD 0 < 1) ∧
    ex_label_correct.performance = [("accuracy", 1)] ∧
    is_incorrect snliEvaluator ex_label_correct = false ∧
    ex_label_wrong.performance = [("accuracy", 0)] ∧
    is_incorrect snliEvaluator ex_label_wrong = true := by
  refine ⟨fun ev lbl => ?_, ?_, ?_, ?_, ?_⟩
  · simp [is_incorrect]
  · decide
  · decide
  · decide
  · decide

/-- Witness for C5: the wrong label is detected as incorrect through the
characterization. -/
theorem is_incorrect_iff_primary_below_one_witness :
    is_incorrect snliEvaluator ex_label_wrong = true :=
  (is_incorrect_iff_primary_below_one.1 snliEvaluator ex_label_wrong).mpr (by decide)

/-- Folding `max` over a list bounded by the seed returns the seed. -/
theorem foldr_max_of_all_le {l : List Nat} {a : Nat} (h : ∀ x ∈ l, x ≤ a) :
    l.foldr max a = a := by
  induction l with
  | nil => rfl
  | cons x t ih =>
    show max x (t.foldr max a) = a
    rw [ih (fun y hy => h y (List.mem_cons_of_mem x hy))]
    exact max_eq_right (h x (List.mem_cons_self x t))

/-- The maximum over `range (k+1)` is `k`. -/
theorem foldr_max_range (k : Nat) : (List.range (k + 1)).foldr max 0 = k := by
  induction k with
  | zero => rfl
  | succ k ih =>
    rw [List.range_succ, List.foldr_append]
    show (List.range (k + 1)).foldr max (max (k + 1) 0) = k + 1
    rw [Nat.max_zero]
    exact foldr_max_of_all_le (fun x hx => le_of_lt (List.mem_range.mp hx))

/-- Computing `next_version` on a store holding exactly `range (k+1)` for
the qid gives `k + 1`. -/
theorem next_version_single (qid : String) (k : Nat) :
    next_version [(qid, List.range (k + 1))] qid = k + 1 := by
  have hl : lookupA [(qid, List.range (k + 1))] qid = some (List.range (k + 1)) := by
    simp [lookupA]
  have hne : (List.range (k + 1)).isEmpty = false := by
    rw [List.range_succ]
    simp
  unfold next_version
  rw [hl]
  simp only [hne, if_false, Bool.false_eq_true]
  rw [foldr_max_range]

/-- Registering `k+1` fresh versions from an empty store yields exactly the
binding `qid ↦ range (k+1)`. -/
theorem register_seq_shape (qid : String) (k : Nat) :
    register_seq qid (k + 1) = [(qid, List.range (k + 1))] := by
  induction k with
  | zero => rfl
  | succ k ih =>
    show register_fresh (register_seq qid (k + 1)) qid = _
    rw [ih]
    unfold register_fresh
    rw [next_version_single]
    show appendVid [(qid, List.range (k + 1))] qid (k + 1) = _
    simp [appendVid, List.range_succ]

/-- C2: `next_version(qid)` is `max(version_index[qid]) + 1`, or 0 for an
unseen qid; after registering `k` instances for a qid starting from an
empty store, the recorded vids are `0, …, k-1` (strictly increasing, no
duplicates) and `next_version` returns `k`. -/
theorem next_version_correct :
    (∀ (vi : List (String × List Nat)) (qid : String),
      lookupA vi qid = none → next_version vi qid = 0) ∧
    (∀ (vi : List (String × List Nat)) (qid : String) (vids : List Nat),
      lookupA vi qid = some vids → vids ≠ [] →
      next_version vi qid = vids.foldr max 0 + 1) ∧
    (∀ (qid : String) (k : Nat),
      vidsOf (register_seq qid k) qid = List.range k ∧
      next_version (register_seq qid k) qid = k ∧
      List.Pairwise (· < ·) (vidsOf (register_seq qid k) qid)) := by
  refine ⟨?_, ?_, ?_⟩
  · intro vi qid h
    simp [next_version, h]
  · intro vi qid vids h hne
    have hf : vids.isEmpty = false := by
      cases vids with
      | nil => exact absurd rfl hne
      | cons a t => rfl
    simp [next_version, h, hf]
  · intro qid k
    cases k with
    | zero =>
      refine ⟨rfl, rfl, ?_⟩
      exact List.Pairwise.nil
    | succ k =>
      rw [register_seq_shape qid k]
      have hv : vidsOf [(qid, List.range (k + 1))] qid = List.range (k + 1) := by
        simp [vidsOf, lookupA]
      refine ⟨hv, next_version_single qid k, ?_⟩
      rw [hv]
      exact List.pairwise_lt_range (k + 1)

/-- Witness for C2: an unseen qid, a populated store, and three sequential
registrations. -/
theorem next_version_correct_witness :
    next_version [] "q" = 0 ∧
    next_version [("q", [0, 1])] "q" = [0, 1].foldr max 0 + 1 ∧
    next_version (register_seq "q" 3) "q" = 3 :=
  ⟨next_version_correct.1 [] "q" rfl,
   next_version_correct.2.1 [("q", [0, 1])] "q" [0, 1] rfl (by decide),
   (next_version_correct.2.2 "q" 3).2.1⟩

/-- When the scan starting at `i` finds an occurrence, it is `i` plus the
first matching offset of the scanned suffix, and no earlier offset of that
suffix matches. -/
theorem firstOccFrom_some {m : List Char} :
    ∀ (src : List Char) (i r : Nat), firstOccFrom m src i = some r →
      ∃ d, r = i + d ∧ spanMatchesAt src m d = true ∧
        ∀ e < d, spanMatchesAt src m e = false := by
  intro src
  induction src with
  | nil =>
    intro i r h
    cases hp : m.isPrefixOf ([] : List Char) with
    | false => simp [firstOccFrom, hp] at h
    | true =>
      simp only [firstOccFrom, hp, if_true, Option.some.injEq] at h
      refine ⟨0, by omega, ?_, fun e he => absurd he (Nat.not_lt_zero e)⟩
      simpa [spanMatchesAt] using hp
  | cons c rest ih =>
    intro i r h
    cases hp : m.isPrefixOf (c :: rest) with
    | true =>
      simp only [firstOccFrom, hp, if_true, Option.some.injEq] at h
      refine ⟨0, by omega, ?_, fun e he => absurd he (Nat.not_lt_zero e)⟩
      simpa [spanMatchesAt] using hp
    | false =>
      simp only [firstOccFrom, hp, Bool.false_eq_true, if_false] at h
      obtain ⟨d, hd, hmatch, hmin⟩ := ih (i + 1) r h
      refine ⟨d + 1, by omega, ?_, ?_⟩
      · simpa [spanMatchesAt] using hmatch
      · intro e he
        cases e with
        | zero => simpa [spanMatchesAt] using hp
        | succ e =>
          have := hmin e (by omega)
          simpa [spanMatchesAt] using this

/-- The scan finds nothing exactly when no offset of the scanned suffix
matches. -/
theorem firstOccFrom_none_iff {m : List Char} :
    ∀ (src : List Char) (i : Nat), firstOccFrom m src i = none ↔
      ∀ d, spanMatchesAt src m d = false := by
  intro src
  induction src with
  | nil =>
    intro i
    cases hp : m.isPrefixOf ([] : List Char) with
    | true =>
      simp only [firstOccFrom, hp, if_true]
      constructor
      · intro h; cases h
      · intro hall
        have := hall 0
        rw [spanMatchesAt, List.drop_nil] at this
        rw [hp] at this
        cases this
    | false =>
      simp only [firstOccFrom, hp, Bool.false_eq_true, if_false]
      constructor
      · intro _ d
        simp [spanMatchesAt, List.drop_nil, hp]
      · intro _
        trivial
  | cons c rest ih =>
    intro i
    cases hp : m.isPrefixOf (c :: rest) with
    | true =>
      simp only [firstOccFrom, hp, if_true]
      constructor
      · intro h; cases h
      · intro hall
        have := hall 0
        rw [spanMatchesAt, List.drop_zero] at this
        rw [hp] at this
        cases this
    | false =>
      simp only [firstOccFrom, hp, Bool.false_eq_true, if_false]
      rw [ih (i + 1)]
      constructor
      · intro hall d
        cases d with
        | zero => simpa [spanMatchesAt] using hp
        | succ d => simpa [spanMatchesAt] using hall d
      · intro hall d
        simpa [spanMatchesAt] using hall (d + 1)

/-- C6: span-label construction locates the matched text as a literal
substring of the source text at the first occurrence by character offset
(span end = start + length of the matched text), fails with
`SpanNotFoundError` exactly when no occurrence exists, and maps source
`"Two women are embracing"` and matched text `"women"` to the span
`(4, 9)`. -/
theorem construct_span_label_first_occurrence :
    (∀ (source matched : String) (s e : Nat),
      construct_span_label source matched = .ok (s, e) →
        spanMatchesAt source.data matched.data s = true ∧
        e = s + matched.length ∧
        ∀ j, spanMatchesAt source.data matched.data j = true → s ≤ j) ∧
    (∀ (source matched : String),
      construct_span_label source matched = .error .SpanNotFoundError ↔
        ∀ j, spanMatchesAt source.data matched.data j = false) ∧
    construct_span_label "Two women are embracing" "women" = .ok (4, 9) := by
  refine ⟨?_, ?_, ?_⟩
  · intro source matched s e h
    unfold construct_span_label at h
    cases hf : firstOccFrom matched.data source.data 0 with
    | none => rw [hf] at h; cases h
    | some r =>
      rw [hf] at h
      simp only [Except.ok.injEq, Prod.mk.injEq] at h
      obtain ⟨hs, he⟩ := h
      obtain ⟨d, hd, hmatch, hmin⟩ := firstOccFrom_some _ _ _ hf
      have hrd : r = d := by omega
      refine ⟨?_, by omega, ?_⟩
      · rw [← hs, hrd]
        exact hmatch
      · intro j hj
        by_contra hlt
        push_neg at hlt
        have : spanMatchesAt source.data matched.data j = false := by
          apply hmin
          omega
        rw [hj] at this
        cases this
  · intro source matched
    unfold construct_span_label
    cases hf : firstOccFrom matched.data source.data 0 with
    | none =>
      simp only []
      constructor
      · intro _
        exact (firstOccFrom_none_iff _ _).mp hf
      · intro _
        trivial
    | some r =>
      simp only []
      constructor
      · intro h; cases h
      · intro hall
        obtain ⟨d, _, hmatch, _⟩ := firstOccFrom_some _ _ _ hf
        rw [hall d] at hmatch
        cases hmatch
  · rfl

/-- Witness for C6 on the spec's example strings. -/
theorem construct_span_label_first_occurrence_witness :
    spanMatchesAt "Two women are embracing".data "women".data 4 = true ∧
    9 = 4 + "women".length ∧
    ∀ j, spanMatchesAt "Two women are embracing".data "women".data j = true → 4 ≤ j :=
  construct_span_label_first_occurrence.1 "Two women are embracing" "women" 4 9 rfl

/-- C7: every materialized `ling_perform_dict` record has `cover ≥ 1`, its
fields are the coverage and error-coverage counts over the corpus, and
`err_rate = err_cover / cover`; on three instances where the pattern
`NOUN are` occurs in two and model `m1` mispredicts one of those two, the
record is `cover = 2, err_cover = 1, err_rate = 0.5`. -/
theorem ling_perform_record_correct :
    (∀ (insts : List AnalyzedInstance) (role pat model : String) (r : PerfRecord),
      ling_perform_record insts role pat model = some r →
        1 ≤ r.cover ∧
        r.cover = cover insts role pat ∧
        r.err_cover = err_cover insts role pat model ∧
        r.err_rate = (r.err_cover : ℚ) / (r.cover : ℚ)) ∧
    ling_perform_record ex_corr_instances "premise" "NOUN are" "m1" =
      some { cover := 2, err_cover := 1, err_rate := 1 / 2 } := by
  constructor
  · intro insts role pat model r h
    unfold ling_perform_record at h
    by_cases hc : cover insts role pat = 0
    · simp [hc] at h
    · simp only [hc, if_false] at h
      have h2 := Option.some.inj h
      subst h2
      exact ⟨Nat.one_le_iff_ne_zero.mpr hc, rfl, rfl, rfl⟩
  · have hc : cover ex_corr_instances "premise" "NOUN are" = 2 := by decide
    have he : err_cover ex_corr_instances "premise" "NOUN are" "m1" = 1 := by decide
    simp only [ling_perform_record, hc, he]
    norm_num

/-- Witness for C7 on the spec's three-instance scenario. -/
theorem ling_perform_record_correct_witness :
    1 ≤ (2 : Nat) ∧
    (2 : Nat) = cover ex_corr_instances "premise" "NOUN are" ∧
    (1 : Nat) = err_cover ex_corr_instances "premise" "NOUN are" "m1" ∧
    (1 / 2 : ℚ) = ((1 : Nat) : ℚ) / ((2 : Nat) : ℚ) :=
  ling_perform_record_correct.1 ex_corr_instances "premise" "NOUN are" "m1"
    { cover := 2, err_cover := 1, err_rate := 1 / 2 }
    (by
      have hc : cover ex_corr_instances "premise" "NOUN are" = 2 := by decide
      have he : err_cover ex_corr_instances "premise" "NOUN are" "m1" = 1 := by decide
      simp only [ling_perform_record, hc, he]
      norm_num)

/-- Statistics distribute over concatenation of partitions. -/
theorem counts_of_append (l1 l2 : List AnalyzedInstance) (role pat model : String) :
    counts_of (l1 ++ l2) role pat model =
      merge_counts (counts_of l1 role pat model) (counts_of l2 role pat model) := by
  simp [counts_of, merge_counts, cover, err_cover, List.countP_append]

/-- C8: merging per-partition statistics by summing `cover` and `err_cover`
per key is commutative and associative, and merging the per-partition
statistics of any partition of the corpus gives the single-pass statistics
of the whole corpus. -/
theorem merge_counts_partition :
    (∀ a b, merge_counts a b = merge_counts b a) ∧
    (∀ a b c, merge_counts (merge_counts a b) c = merge_counts a (merge_counts b c)) ∧
    (∀ (parts : List (List AnalyzedInstance)) (role pat model : String),
      counts_of parts.flatten role pat model =
        (parts.map (fun part => counts_of part role pat model)).foldr
          merge_counts zero_counts) := by
  refine ⟨?_, ?_, ?_⟩
  · intro a b
    cases a
    cases b
    simp [merge_counts, Nat.add_comm]
  · intro a b c
    cases a
    cases b
    cases c
    simp [merge_counts, Nat.add_assoc]
  · intro parts role pat model
    induction parts with
    | nil => rfl
    | cons p rest ih =>
      rw [List.flatten_cons, counts_of_append, List.map_cons, List.foldr_cons, ih]

/-- Bound on the instances the `_read` loop appends from index `idx` on:
one for the current row plus one per remaining index up to the break. -/
theorem snli_read_loop_length_le {α : Type} {n : Nat} (hn : n ≠ 0) :
    ∀ (rows : List (Option α)) (idx : Nat),
      (snli_read_loop n rows idx).length ≤ 1 + (n + 1 - idx) := by
  intro rows
  induction rows with
  | nil =>
    intro idx
    simp [snli_read_loop]
  | cons row rest ih =>
    intro idx
    simp only [snli_read_loop]
    have happ : (match row with | some a => [a] | none => ([] : List α)).length ≤ 1 := by
      cases row <;> simp
    by_cases hc : n ≠ 0 ∧ n < idx
    · rw [if_pos hc]
      omega
    · rw [if_neg hc]
      have hidx : idx ≤ n := by
        rcases Nat.lt_or_ge n idx with h | h
        · exact absurd ⟨hn, h⟩ hc
        · omega
      rw [List.length_append]
      have hrest := ih (idx + 1)
      omega

/-- C10: with a positive `sample_size` n, the `_read` loop breaks only once
the row index exceeds n, so the returned instance list can hold up to
`n + 2` instances — and does on a file of 5 rows with `sample_size = 1`,
where it returns 3 instances rather than 1. -/
theorem snli_read_sample_size_overshoot :
    (∀ (α : Type) (rows : List (Option α)) (n : Nat), 0 < n →
      (snli_read rows n).length ≤ n + 2) ∧
    snli_read (List.replicate 5 (some (0 : Nat))) 1 = [0, 0, 0] := by
  constructor
  · intro α rows n hn
    have h := snli_read_loop_length_le (α := α) (by omega : n ≠ 0) rows 0
    unfold snli_read
    omega
  · rfl

/-- Witness for C10: the bound applied to the concrete 5-row read. -/
theorem snli_read_sample_size_overshoot_witness :
    (snli_read (List.replicate 5 (some (0 : Nat))) 1).length ≤ 1 + 2 :=
  snli_read_sample_size_overshoot.1 Nat (List.replicate 5 (some 0)) 1 (by decide)

end Errudite
